import Mathlib

/-!
Shallow embedding of the buddy allocator (buddy.h / buddy.c, final version:
the one that defines `get_bit_tree_index`, `get_state`, `set_state`, `append`,
`free_list_remove`, `split_partition`, `buddy_init`, `buddy_malloc`,
`buddy_free`).

Modelling conventions:
* Addresses are natural numbers (C `uintptr_t`); the NULL pointer is 0.
* The `bit_tree` array of 32-bit words is modelled as a total map
  `Nat → Nat` from word index to word value, so that the out-of-bounds
  word-index question (claim about TREE_WORDS) can be analysed separately
  from the state-update algebra.  Each C word is a `uint32_t`; the C
  operator `~x` on a `uint32_t` is embedded as `(2^32 - 1) ^^^ x`.
* Each doubly linked free list threaded through pool memory is modelled as
  the list of block addresses from head to tail.  The C `append` (push at
  head, fixing up `prev`/`next`) becomes `List.cons`; the C
  `free_list_remove` (unlink the node at a given address) becomes
  `List.erase`, which agrees with the C code whenever the address actually
  occurs in the (well-formed, duplicate-free) list.
* Loops are written as fuel-indexed structural recursions; every call site
  passes fuel that is provably at least the number of iterations the C loop
  performs, so the embedded function computes exactly what the C loop does.
* `sizeof(buddy_t) = 64` and `_Alignof(buddy_t) = 8` correspond to the
  declared `struct buddy` (8-byte `uintptr_t base`, 8-byte `size_t size`,
  `uint32_t bit_tree[1]`, 4 bytes padding, five 8-byte list-head pointers)
  on the LP64 platforms the code targets.
-/

def MEM_BLOCK_LOG2 : Nat := 8
def MAX_BLOCK_LOG2 : Nat := 8
def MIN_BLOCK_LOG2 : Nat := 4

def MAX_ORDER : Nat := MAX_BLOCK_LOG2 - MIN_BLOCK_LOG2

def TOTAL_TREE_NODES : Nat := (1 <<< (MEM_BLOCK_LOG2 - MIN_BLOCK_LOG2 + 1)) - 1

def TRUNCATED_TREE_NODES : Nat := (1 <<< (MEM_BLOCK_LOG2 - MAX_BLOCK_LOG2)) - 1

def TREE_NODES : Nat := TOTAL_TREE_NODES - TRUNCATED_TREE_NODES

def TREE_WORDS : Nat := (TREE_NODES + 31) / 32

def sizeof_buddy_t : Nat := 64

def alignof_buddy_t : Nat := 8

structure buddy_t where
  base : Nat
  size : Nat
  bit_tree : Nat → Nat
  free_lists : Nat → List Nat

instance : Inhabited buddy_t := ⟨0, 0, fun _ => 0, fun _ => []⟩

/-- The C helper `get_order`: scans `n` from `MAX_BLOCK_LOG2` down to
`MIN_BLOCK_LOG2` and returns `n - MIN_BLOCK_LOG2` for the first `n` with
`(1 << n) <= length`; returns 0 if none.  The descending scan is embedded
as a countdown `k` with `n = MIN_BLOCK_LOG2 + k`. -/
def get_order_loop (length : Nat) : Nat → Nat
  | 0 => 0
  | k + 1 => if 1 <<< (MIN_BLOCK_LOG2 + k) ≤ length then k else get_order_loop length k

def get_order (length : Nat) : Nat :=
  get_order_loop length (MAX_BLOCK_LOG2 - MIN_BLOCK_LOG2 + 1)

/-- C `get_bit_tree_index`:
`height = MEM_BLOCK_LOG2 - order - MIN_BLOCK_LOG2`,
`offset = (address - base) / (1 << (MIN_BLOCK_LOG2 + order))`,
`index = (1 << height) - 1 + offset - TRUNCATED_TREE_NODES`. -/
def get_bit_tree_index (alloc : buddy_t) (address order : Nat) : Nat :=
  let height := MEM_BLOCK_LOG2 - order - MIN_BLOCK_LOG2
  let offset := (address - alloc.base) / (1 <<< (MIN_BLOCK_LOG2 + order))
  (1 <<< height) - 1 + offset - TRUNCATED_TREE_NODES

/-- C `get_state`: reads the 2-bit field of the node:
`word_index = index / 16`, `word_offset = index * 2 % 32`,
result `(bit_tree[word_index] >> word_offset) & 3`. -/
def get_state (alloc : buddy_t) (address order : Nat) : Nat :=
  let index := get_bit_tree_index alloc address order
  let word_index := index / 16
  let word_offset := index * 2 % 32
  (alloc.bit_tree word_index >>> word_offset) &&& 3

/-- C `set_state`: `mask = ~(3 << word_offset)` (a `uint32_t`, embedded as
`(2^32 - 1) ^^^ (3 <<< word_offset)`), then
`bit_tree[word_index] = bit_tree[word_index] & mask | state << word_offset`. -/
def set_state (alloc : buddy_t) (address order state : Nat) : buddy_t :=
  let index := get_bit_tree_index alloc address order
  let word_index := index / 16
  let word_offset := index * 2 % 32
  let mask := (2 ^ 32 - 1) ^^^ (3 <<< word_offset)
  { alloc with
    bit_tree := fun i =>
      if i = word_index then (alloc.bit_tree word_index &&& mask) ||| (state <<< word_offset)
      else alloc.bit_tree i }

/-- C `append`: push the block at `address` onto the head of
`free_lists[order]` (the pointer surgery on `prev`/`next` realises exactly a
cons onto the head). -/
def append (alloc : buddy_t) (address order : Nat) : buddy_t :=
  { alloc with
    free_lists := fun o =>
      if o = order then address :: alloc.free_lists order else alloc.free_lists o }

/-- C `free_list_remove`: unlink the node at `address` from
`free_lists[order]`; for a well-formed list containing `address` once this
is `List.erase`. -/
def free_list_remove (alloc : buddy_t) (address order : Nat) : buddy_t :=
  { alloc with
    free_lists := fun o =>
      if o = order then (alloc.free_lists order).erase address else alloc.free_lists o }

/-- C `split_partition`: `while (order > target)` take the head of
`free_lists[order]` (NULL, i.e. 0, if the list is empty — the C code performs
no emptiness check), compute its buddy by XOR, remove it, mark it split (1),
decrement the order, push both halves, and return the order once `target` is
reached; if the loop is never entered return `MAX_ORDER + 1`.  The recursion
is structural on `order`. -/
def split_partition : buddy_t → Nat → Nat → Nat × buddy_t
  | alloc, 0, _ => (MAX_ORDER + 1, alloc)
  | alloc, order + 1, target =>
    if target < order + 1 then
      let address := (alloc.free_lists (order + 1)).headD 0
      let buddy_address :=
        ((address - alloc.base) ^^^ (1 <<< (order + 1 - 1 + MIN_BLOCK_LOG2))) + alloc.base
      let a1 := free_list_remove alloc address (order + 1)
      let a2 := set_state a1 address (order + 1) 1
      let a3 := append a2 address order
      let a4 := append a3 buddy_address order
      if order = target then (order, a4) else split_partition a4 order target
    else (MAX_ORDER + 1, alloc)

/-- First loop of C `buddy_init`: `while (length >= 1 << MIN_BLOCK_LOG2)`
append the largest-fit block to its free list and advance.  Returns the
final allocator state and the address reached.  Fuel-indexed; `buddy_init`
passes fuel `length`, which is at least the iteration count. -/
def init_free_loop : Nat → buddy_t → Nat → Nat → buddy_t × Nat
  | 0, alloc, address, _ => (alloc, address)
  | fuel + 1, alloc, address, length =>
    if 1 <<< MIN_BLOCK_LOG2 ≤ length then
      let order := get_order length
      let partition_size := 1 <<< (order + MIN_BLOCK_LOG2)
      init_free_loop fuel (append alloc address order) (address + partition_size)
        (length - partition_size)
    else (alloc, address)

/-- Second loop of C `buddy_init`: `while (used >= 1 << MIN_BLOCK_LOG2)`
mark the largest-fit block reserved (state 3) in the bit tree and advance. -/
def init_reserved_loop : Nat → buddy_t → Nat → Nat → buddy_t
  | 0, alloc, _, _ => alloc
  | fuel + 1, alloc, address, used =>
    if 1 <<< MIN_BLOCK_LOG2 ≤ used then
      let order := get_order used
      let partition_size := 1 <<< (order + MIN_BLOCK_LOG2)
      init_reserved_loop fuel (set_state alloc address order 3) (address + partition_size)
        (used - partition_size)
    else alloc

/-- The alignment padding computed by C `buddy_init`:
`pad = -(uintptr_t)base & (_Alignof(buddy_t) - 1)`, with the unary minus
taken modulo `2^64`. -/
def init_pad (base : Nat) : Nat :=
  ((2 ^ 64 - base % 2 ^ 64) % 2 ^ 64) &&& (alignof_buddy_t - 1)

/-- C `buddy_init`: validate that the buffer holds the (aligned) descriptor,
carve the descriptor out, zero the bit tree and the free lists, partition the
remaining bytes into free blocks, then mark `pad + sizeof(buddy_t)` bytes
reserved starting at the address the free partitioning stopped at.  Returns
`none` exactly when the C function returns NULL. -/
def buddy_init (base length : Nat) : Option buddy_t :=
  let pad := init_pad base
  if length < pad then none
  else
    let base1 := base + pad
    let length1 := length - pad
    if length1 < sizeof_buddy_t then none
    else
      let alloc_base := base1 + sizeof_buddy_t
      let alloc_size := length1 - sizeof_buddy_t
      let alloc0 : buddy_t :=
        { base := alloc_base, size := alloc_size
          bit_tree := fun _ => 0, free_lists := fun _ => [] }
      let fr := init_free_loop alloc_size alloc0 alloc_base alloc_size
      let used := init_pad base + sizeof_buddy_t
      some (init_reserved_loop used fr.1 fr.2 used)

/-- The `for (i = order + 1; i <= MAX_ORDER; i++)` search in C
`buddy_malloc`: find the first non-empty larger free list, split it down to
`order`, take the head of the resulting list, mark it allocated (2), and
return its address; if the split reports failure return NULL with the pool
as the split left it; if no list is non-empty return NULL (out of memory). -/
def malloc_scan : Nat → buddy_t → Nat → Nat → Option Nat × buddy_t
  | 0, alloc, _, _ => (none, alloc)
  | fuel + 1, alloc, order, i =>
    if i ≤ MAX_ORDER then
      if alloc.free_lists i = [] then malloc_scan fuel alloc order (i + 1)
      else
        let r := split_partition alloc i order
        if r.1 = MAX_ORDER + 1 then (none, r.2)
        else
          let address := ((r.2).free_lists r.1).headD 0
          let a1 := free_list_remove r.2 address r.1
          let a2 := set_state a1 address r.1 2
          (some address, a2)
    else (none, alloc)

/-- C `buddy_malloc`: reject requests larger than `1 << MAX_BLOCK_LOG2`,
compute the order with `get_order`, serve from `free_lists[order]` if
non-empty (remove head, mark allocated), otherwise scan the larger orders.
The returned pair is (result address or NULL, pool state after the call). -/
def buddy_malloc (alloc : buddy_t) (length : Nat) : Option Nat × buddy_t :=
  if 1 <<< MAX_BLOCK_LOG2 < length then (none, alloc)
  else
    let order := get_order length
    if alloc.free_lists order = [] then
      malloc_scan (MAX_ORDER + 1) alloc order (order + 1)
    else
      let address := (alloc.free_lists order).headD 0
      let a1 := free_list_remove alloc address order
      let a2 := set_state a1 address order 2
      (some address, a2)

/-- The `while (order < MAX_ORDER)` merge loop of C `buddy_free`: mark the
block free, unlink the buddy, step to the parent order, mark it free,
recompute the buddy address by XOR at the new order, and stop as soon as the
buddy state is non-zero.  Returns the state and the final order.  Fuel-indexed;
`buddy_free` passes fuel `MAX_ORDER`, at least the iteration count. -/
def buddy_free_loop : Nat → buddy_t → Nat → Nat → Nat → buddy_t × Nat
  | 0, alloc, _, order, _ => (alloc, order)
  | fuel + 1, alloc, address, order, buddy_address =>
    if order < MAX_ORDER then
      let a1 := set_state alloc address order 0
      let a2 := free_list_remove a1 buddy_address order
      let order1 := order + 1
      let a3 := set_state a2 address order1 0
      let buddy1 := ((address - a3.base) ^^^ (1 <<< (order1 + MIN_BLOCK_LOG2))) + a3.base
      if get_state a3 buddy1 order1 ≠ 0 then (a3, order1)
      else buddy_free_loop fuel a3 address order1 buddy1
    else (alloc, order)

/-- C `buddy_free`: compute the order from the caller-supplied size, compute
the buddy address by XOR, read the buddy state; if it is 1, 2 or 3 reinsert
the block and mark it free; otherwise run the merge loop and append the
block at the final order. -/
def buddy_free (alloc : buddy_t) (addr length : Nat) : buddy_t :=
  let order := get_order length
  let address := addr
  let buddy_address := ((address - alloc.base) ^^^ (1 <<< (order + MIN_BLOCK_LOG2))) + alloc.base
  let buddy_state := get_state alloc buddy_address order
  if buddy_state = 1 ∨ buddy_state = 2 ∨ buddy_state = 3 then
    set_state (append alloc address order) address order 0
  else
    let r := buddy_free_loop MAX_ORDER alloc address order buddy_address
    append r.1 address r.2

/-- Validity of a block description: order in range, address inside the
`2^MEM_BLOCK_LOG2` window above the managed base, offset aligned to the
block size. -/
def ValidBlock (alloc : buddy_t) (address order : Nat) : Prop :=
  order ≤ MAX_ORDER ∧ alloc.base ≤ address ∧
    address - alloc.base < 1 <<< MEM_BLOCK_LOG2 ∧
    (address - alloc.base) % (1 <<< (order + MIN_BLOCK_LOG2)) = 0

instance (alloc : buddy_t) (address order : Nat) :
    Decidable (ValidBlock alloc address order) := by
  unfold ValidBlock; infer_instance

/-! ### Closed form and characterisation of `get_order` -/

theorem get_order_eq (len : Nat) :
    get_order len =
      if 256 ≤ len then 4 else if 128 ≤ len then 3 else if 64 ≤ len then 2
      else if 32 ≤ len then 1 else 0 := by
  have h : get_order len =
      if 256 ≤ len then 4 else if 128 ≤ len then 3 else if 64 ≤ len then 2
      else if 32 ≤ len then 1 else if 16 ≤ len then 0 else 0 := rfl
  rw [h, ite_self]

theorem get_order_le_max (len : Nat) : get_order len ≤ MAX_ORDER := by
  rw [get_order_eq, MAX_ORDER, MAX_BLOCK_LOG2, MIN_BLOCK_LOG2]
  split_ifs <;> omega

theorem get_order_block_le (len : Nat) (h : 1 <<< MIN_BLOCK_LOG2 ≤ len) :
    1 <<< (get_order len + MIN_BLOCK_LOG2) ≤ len := by
  rw [MIN_BLOCK_LOG2] at *
  rw [get_order_eq]
  split_ifs with h1 h2 h3 h4 <;> simp only [Nat.shiftLeft_eq] at * <;> norm_num at * <;> omega

theorem get_order_block_large (len : Nat) (h : get_order len < MAX_ORDER) :
    len < 1 <<< (get_order len + MIN_BLOCK_LOG2 + 1) := by
  rw [MIN_BLOCK_LOG2, MAX_ORDER, MAX_BLOCK_LOG2, MIN_BLOCK_LOG2] at *
  rw [get_order_eq] at *
  split_ifs at * <;> simp only [Nat.shiftLeft_eq] <;> norm_num <;> omega

theorem get_order_mono {len' len : Nat} (h : len' ≤ len) : get_order len' ≤ get_order len := by
  rw [get_order_eq, get_order_eq]
  split_ifs <;> omega

theorem get_order_greatest (len o : Nat) (ho : o ≤ MAX_ORDER)
    (hs : 1 <<< (o + MIN_BLOCK_LOG2) ≤ len) : o ≤ get_order len := by
  rw [MAX_ORDER, MAX_BLOCK_LOG2, MIN_BLOCK_LOG2] at ho
  rw [MIN_BLOCK_LOG2] at hs
  rw [get_order_eq]
  interval_cases o <;> simp only [Nat.shiftLeft_eq] at hs <;> norm_num at hs <;>
    split_ifs <;> omega

/-! ### Word-level lemmas for the packed 2-bit fields -/

theorem and_three_eq_mod (x : Nat) : x &&& 3 = x % 4 := by
  have h3 : (3 : Nat) = 2 ^ 2 - 1 := rfl
  have h4 : (4 : Nat) = 2 ^ 2 := rfl
  rw [h3, h4, Nat.and_pow_two_sub_one_eq_mod]

theorem lt_four_eq_of_testBit {a b : Nat} (ha : a < 4) (hb : b < 4)
    (h0 : a.testBit 0 = b.testBit 0) (h1 : a.testBit 1 = b.testBit 1) : a = b := by
  interval_cases a <;> interval_cases b <;> revert h0 h1 <;> decide

theorem testBit_of_lt_four {st : Nat} (hst : st < 4) {m : Nat} (hm : 2 ≤ m) :
    st.testBit m = false := by
  apply Nat.testBit_lt_two_pow
  calc st < 4 := hst
    _ = 2 ^ 2 := rfl
    _ ≤ 2 ^ m := Nat.pow_le_pow_right (by norm_num) hm

theorem shiftRight_and_three_testBit (x k : Nat) :
    (x >>> k) &&& 3 = (if x.testBit (k + 1) then 2 else 0) + (if x.testBit k then 1 else 0) := by
  rw [and_three_eq_mod]
  have e0 : ((x >>> k) % 4).testBit 0 = x.testBit k := by
    rw [show (4 : Nat) = 2 ^ 2 from rfl, Nat.testBit_mod_two_pow, Nat.testBit_shiftRight]
    simp
  have e1 : ((x >>> k) % 4).testBit 1 = x.testBit (k + 1) := by
    rw [show (4 : Nat) = 2 ^ 2 from rfl, Nat.testBit_mod_two_pow, Nat.testBit_shiftRight]
    simp
  apply lt_four_eq_of_testBit (Nat.mod_lt _ (by norm_num))
  · cases x.testBit (k + 1) <;> cases x.testBit k <;> decide
  · cases h1 : x.testBit (k + 1) <;> cases h0 : x.testBit k <;> rw [e0, h0] <;> decide
  · cases h1 : x.testBit (k + 1) <;> cases h0 : x.testBit k <;> rw [e1, h1] <;> decide

theorem masked_word_testBit_same (w st off j : Nat) (hst : st < 4)
    (hj : j = off ∨ j = off + 1) (hj32 : j < 32) :
    ((w &&& ((2 ^ 32 - 1) ^^^ (3 <<< off))) ||| (st <<< off)).testBit j
      = st.testBit (j - off) := by
  have h3j : ((3 : Nat) <<< off).testBit j = true := by
    rw [Nat.testBit_shiftLeft]
    rcases hj with h | h <;> subst h
    · simp
    · have h1 : off + 1 - off = 1 := by omega
      have h2 : (3 : Nat).testBit 1 = true := by decide
      simp [h1, h2]
  have hmask : ((2 ^ 32 - 1) ^^^ (3 <<< off)).testBit j = false := by
    rw [Nat.testBit_xor, Nat.testBit_two_pow_sub_one, h3j]
    simp [hj32]
  rw [Nat.testBit_lor, Nat.testBit_land, hmask, Bool.and_false, Bool.false_or,
    Nat.testBit_shiftLeft]
  rcases hj with h | h <;> subst h
  · simp
  · have h1 : off + 1 - off = 1 := by omega
    simp [h1]

theorem masked_word_testBit_other (w st off j : Nat) (hst : st < 4)
    (hj : j ≠ off) (hj' : j ≠ off + 1) (hj32 : j < 32) :
    ((w &&& ((2 ^ 32 - 1) ^^^ (3 <<< off))) ||| (st <<< off)).testBit j = w.testBit j := by
  have hst' : ∀ m, 2 ≤ m → st.testBit m = false := fun m hm => testBit_of_lt_four hst hm
  have h3' : ∀ m, 2 ≤ m → (3 : Nat).testBit m = false :=
    fun m hm => testBit_of_lt_four (by norm_num) hm
  have hshift : ((st : Nat) <<< off).testBit j = false := by
    rw [Nat.testBit_shiftLeft]
    rcases Nat.lt_or_ge j off with h | h
    · simp [Nat.not_le.mpr h]
    · have : 2 ≤ j - off := by omega
      simp [hst' _ this]
  have h3shift : ((3 : Nat) <<< off).testBit j = false := by
    rw [Nat.testBit_shiftLeft]
    rcases Nat.lt_or_ge j off with h | h
    · simp [Nat.not_le.mpr h]
    · have : 2 ≤ j - off := by omega
      simp [h3' _ this]
  have hmask : ((2 ^ 32 - 1) ^^^ (3 <<< off)).testBit j = true := by
    rw [Nat.testBit_xor, Nat.testBit_two_pow_sub_one, h3shift]
    simp [hj32]
  rw [Nat.testBit_lor, Nat.testBit_land, hmask, hshift, Bool.and_true, Bool.or_false]

theorem word_readback (w st off : Nat) (hoff : off ≤ 30) (hst : st < 4) :
    (((w &&& ((2 ^ 32 - 1) ^^^ (3 <<< off))) ||| (st <<< off)) >>> off) &&& 3 = st := by
  rw [shiftRight_and_three_testBit,
    masked_word_testBit_same w st off (off + 1) hst (Or.inr rfl) (by omega),
    masked_word_testBit_same w st off off hst (Or.inl rfl) (by omega)]
  simp only [Nat.add_sub_cancel_left, Nat.sub_self]
  have : st.testBit 0 = decide (st % 2 = 1) := by
    rw [Nat.testBit_zero]
  interval_cases st <;> decide

theorem word_read_frame (w st off off' : Nat) (he : off % 2 = 0) (hoff : off ≤ 30)
    (he' : off' % 2 = 0) (hoff' : off' ≤ 30) (hne : off' ≠ off) (hst : st < 4) :
    (((w &&& ((2 ^ 32 - 1) ^^^ (3 <<< off))) ||| (st <<< off)) >>> off') &&& 3
      = (w >>> off') &&& 3 := by
  rw [shiftRight_and_three_testBit, shiftRight_and_three_testBit,
    masked_word_testBit_other w st off (off' + 1) hst (by omega) (by omega) (by omega),
    masked_word_testBit_other w st off off' hst (by omega) (by omega) (by omega)]

/-! ### State-tracker interface lemmas -/

theorem set_state_tree (alloc : buddy_t) (a o st i : Nat) :
    (set_state alloc a o st).bit_tree i =
      if i = get_bit_tree_index alloc a o / 16 then
        (alloc.bit_tree (get_bit_tree_index alloc a o / 16) &&&
          ((2 ^ 32 - 1) ^^^ (3 <<< (get_bit_tree_index alloc a o * 2 % 32)))) |||
          (st <<< (get_bit_tree_index alloc a o * 2 % 32))
      else alloc.bit_tree i := rfl

theorem get_state_eq (alloc : buddy_t) (a o : Nat) :
    get_state alloc a o =
      (alloc.bit_tree (get_bit_tree_index alloc a o / 16) >>>
        (get_bit_tree_index alloc a o * 2 % 32)) &&& 3 := rfl

theorem get_bit_tree_index_congr (s t : buddy_t) (h : s.base = t.base) (a o : Nat) :
    get_bit_tree_index s a o = get_bit_tree_index t a o := by
  unfold get_bit_tree_index
  rw [h]

theorem off_le_30 (i : Nat) : i * 2 % 32 ≤ 30 := by omega

theorem off_even (i : Nat) : i * 2 % 32 % 2 = 0 := by omega

theorem index_off_ne {i j : Nat} (hne : i ≠ j) (hw : i / 16 = j / 16) :
    i * 2 % 32 ≠ j * 2 % 32 := by omega

theorem get_state_set_state_same (alloc : buddy_t) (a o st : Nat) (hst : st < 4) :
    get_state (set_state alloc a o st) a o = st := by
  rw [get_state_eq, get_bit_tree_index_congr (set_state alloc a o st) alloc rfl,
    set_state_tree, if_pos rfl]
  exact word_readback _ _ _ (off_le_30 _) hst

theorem get_state_set_state_other (alloc : buddy_t) (a o st a' o' : Nat) (hst : st < 4)
    (hne : get_bit_tree_index alloc a' o' ≠ get_bit_tree_index alloc a o) :
    get_state (set_state alloc a o st) a' o' = get_state alloc a' o' := by
  rw [get_state_eq, get_state_eq,
    get_bit_tree_index_congr (set_state alloc a o st) alloc rfl, set_state_tree]
  by_cases hw : get_bit_tree_index alloc a' o' / 16 = get_bit_tree_index alloc a o / 16
  · rw [if_pos hw, hw]
    exact word_read_frame _ _ _ _ (off_even _) (off_le_30 _) (off_even _) (off_le_30 _)
      (index_off_ne hne hw) hst
  · rw [if_neg hw]

theorem get_state_congr {s t : buddy_t} (hb : s.base = t.base)
    (ht : ∀ i, s.bit_tree i = t.bit_tree i) (a o : Nat) :
    get_state s a o = get_state t a o := by
  rw [get_state_eq, get_state_eq, get_bit_tree_index_congr s t hb, ht]

theorem get_state_of_zero_tree {s : buddy_t} (h : ∀ i, s.bit_tree i = 0) (a o : Nat) :
    get_state s a o = 0 := by
  rw [get_state_eq, h]
  simp

/-- A concrete pool used by the evaluation witnesses below. -/
def word_pool : buddy_t :=
  { base := 0, size := 256, bit_tree := fun _ => 0, free_lists := fun _ => [] }

/-- C4: for a valid block and a state value, `set_state` changes exactly the
two bits of that node's field: an immediate `get_state` of the same
(address, order) returns the state just written; any node with a different
bit-tree index reads the same state as before; every word other than the
written one is untouched; and inside the written word every bit outside the
node's own two-bit field (in particular every adjacent field packed in the
same 32-bit word) keeps its previous value. -/
theorem C4_two_bit_field_update (alloc : buddy_t) (a o st a' o' : Nat)
    (hv : ValidBlock alloc a o) (hst : st < 4) :
    get_state (set_state alloc a o st) a o = st
    ∧ (get_bit_tree_index alloc a' o' ≠ get_bit_tree_index alloc a o →
        get_state (set_state alloc a o st) a' o' = get_state alloc a' o')
    ∧ (∀ i, i ≠ get_bit_tree_index alloc a o / 16 →
        (set_state alloc a o st).bit_tree i = alloc.bit_tree i)
    ∧ (∀ j, j < 32 → j ≠ get_bit_tree_index alloc a o * 2 % 32 →
        j ≠ get_bit_tree_index alloc a o * 2 % 32 + 1 →
        ((set_state alloc a o st).bit_tree (get_bit_tree_index alloc a o / 16)).testBit j
          = (alloc.bit_tree (get_bit_tree_index alloc a o / 16)).testBit j) := by
  refine ⟨get_state_set_state_same alloc a o st hst,
    get_state_set_state_other alloc a o st a' o' hst, ?_, ?_⟩
  · intro i hi
    rw [set_state_tree, if_neg hi]
  · intro j h32 hj hj'
    rw [set_state_tree, if_pos rfl]
    exact masked_word_testBit_other _ _ _ _ hst hj hj' h32

/-- Witness for C4: a concrete valid block, a concrete state value, and the
read-back of the state just written, obtained by applying the theorem. -/
theorem C4_two_bit_field_update_witness :
    ValidBlock word_pool 32 0 ∧ 2 < 4 ∧ get_state (set_state word_pool 32 0 2) 32 0 = 2 :=
  ⟨by decide, by decide, (C4_two_bit_field_update word_pool 32 0 2 48 0 (by decide) (by decide)).1⟩

/-! ### buddy_malloc failure paths -/

theorem split_partition_fst (alloc : buddy_t) (order target : Nat) :
    target < order → (split_partition alloc order target).1 = target := by
  induction order generalizing alloc with
  | zero => intro h; omega
  | succ o ih =>
    intro h
    by_cases ht : o = target
    · subst ht
      simp [split_partition, h]
    · have h' : target < o := by omega
      simp only [split_partition, if_pos h, if_neg ht]
      exact ih _ h'

theorem malloc_scan_none (fuel : Nat) :
    ∀ (alloc : buddy_t) (order i : Nat), order < i →
      (malloc_scan fuel alloc order i).1 = none → (malloc_scan fuel alloc order i).2 = alloc := by
  induction fuel with
  | zero => intro alloc order i _ _; rfl
  | succ f ih =>
    intro alloc order i hlt hnone
    by_cases hi : i ≤ MAX_ORDER
    · by_cases hempty : alloc.free_lists i = []
      · simp only [malloc_scan, if_pos hi, if_pos hempty] at hnone ⊢
        exact ih alloc order (i + 1) (by omega) hnone
      · exfalso
        have hsp : (split_partition alloc i order).1 = order :=
          split_partition_fst alloc i order hlt
        have hcond : ¬(split_partition alloc i order).1 = MAX_ORDER + 1 := by
          rw [hsp]; omega
        simp only [malloc_scan, if_pos hi, if_neg hempty, if_neg hcond] at hnone
        simp at hnone
    · simp only [malloc_scan, if_neg hi]

/-- A pool with no free memory at all, used for the out-of-memory and
size-too-large failure paths and for the split-on-empty-list analysis. -/
def empty_pool : buddy_t :=
  { base := 64, size := 0, bit_tree := fun _ => 0, free_lists := fun _ => [] }

/-- C5: whenever `buddy_malloc` fails — the request exceeds the largest block
(`1 << MAX_BLOCK_LOG2`) or no free block of the required or a larger order
exists — the pool state returned by the call (bit tree, free lists, base and
size) is exactly the state before the call. -/
theorem C5_failed_malloc_preserves_state (alloc : buddy_t) (length : Nat)
    (h : (buddy_malloc alloc length).1 = none) : (buddy_malloc alloc length).2 = alloc := by
  by_cases h1 : 1 <<< MAX_BLOCK_LOG2 < length
  · simp only [buddy_malloc, if_pos h1]
  · by_cases h2 : alloc.free_lists (get_order length) = []
    · simp only [buddy_malloc, if_neg h1, if_pos h2] at h ⊢
      have horder : get_order length < get_order length + 1 := by omega
      exact malloc_scan_none _ alloc _ _ horder h
    · exfalso
      simp only [buddy_malloc, if_neg h1, if_neg h2] at h
      simp at h

/-- Witness for C5: a pool with empty free lists; a 300-byte request fails the
size check, a 20-byte request runs out of memory; both leave the state equal
to the input state by the theorem. -/
theorem C5_failed_malloc_preserves_state_witness :
    (buddy_malloc empty_pool 300).1 = none ∧ (buddy_malloc empty_pool 300).2 = empty_pool ∧
    (buddy_malloc empty_pool 20).1 = none ∧ (buddy_malloc empty_pool 20).2 = empty_pool :=
  ⟨by decide, C5_failed_malloc_preserves_state empty_pool 300 (by decide),
   by decide, C5_failed_malloc_preserves_state empty_pool 20 (by decide)⟩

/-! ### Concrete reachable pool states -/

/-- Pool built by `buddy_init` on a 128-byte buffer at address 0: descriptor
in `[0, 64)`, managed base 64, one free block `[64, 128)` of order 2. -/
def pool128 : buddy_t := (buddy_init 0 128).getD default

def pool128_r1 : Option Nat × buddy_t := buddy_malloc pool128 16

def pool128_r2 : Option Nat × buddy_t := buddy_malloc pool128_r1.2 16

def pool128_r3 : Option Nat × buddy_t := buddy_malloc pool128_r2.2 16

/-- State after releasing the third 16-byte allocation (address 80, the upper
buddy of the free block at 64). -/
def pool128_after_free : buddy_t := buddy_free pool128_r3.2 80 16

/-- Pool built by `buddy_init` on a 320-byte buffer at address 0: descriptor
in `[0, 64)`, managed base 64, one free block `[64, 320)` of order
`MAX_ORDER`. -/
def pool320 : buddy_t := (buddy_init 0 320).getD default

def pool320_r1 : Option Nat × buddy_t := buddy_malloc pool320 256

/-- State after releasing the 256-byte allocation with its exact size. -/
def pool320_after_free : buddy_t := buddy_free pool320_r1.2 64 256

/-- C1 (code bug): `get_order`, the order computation `buddy_malloc` uses,
rounds the requested size DOWN to the largest block size not exceeding it
instead of UP to the smallest block size at least the request: for the
in-range request 20 it returns order 0, whose block size 16 is smaller than
the request, although order 1 (block size 32 ≥ 20) is available; running
`buddy_malloc` on a live pool with a 20-byte request indeed hands out a
block that is marked allocated at order 0, i.e. a 16-byte block. -/
theorem C1_get_order_rounds_down :
    get_order 20 = 0 ∧ 1 <<< (get_order 20 + MIN_BLOCK_LOG2) < 20 ∧
    20 ≤ 1 <<< (1 + MIN_BLOCK_LOG2) ∧ 20 ≤ 1 <<< (MAX_ORDER + MIN_BLOCK_LOG2) ∧
    (buddy_malloc pool128 20).1 = some 112 ∧
    get_state (buddy_malloc pool128 20).2 112 0 = 2 := by decide

/-- C2 (code bug): releasing the upper buddy (address 80 = base + 16) of a
free pair does merge the bit-tree states, but `buddy_free` keeps using the
released address instead of the parent's base address (the minimum 64 of the
pair 64/80): the block inserted into `free_lists[1]` is 80, not the parent
block 64, even though the parent node `[64, 96)` is the one marked free. -/
theorem C2_merge_keeps_upper_address :
    (buddy_init 0 128).isSome = true ∧
    pool128_r1.1 = some 112 ∧ pool128_r2.1 = some 96 ∧ pool128_r3.1 = some 80 ∧
    pool128.base = 64 ∧ get_state pool128_after_free 64 1 = 0 ∧
    pool128_after_free.free_lists 0 = [] ∧
    pool128_after_free.free_lists 1 = [80] := by decide

/-- C3 (counterexample to the stated iff): immediately after a successful
`buddy_init`, the whole-pool node (address 64, order `MAX_ORDER`) is a valid
block whose tracked 2-bit state is 00 (free), yet it does not appear in
`free_lists[MAX_ORDER]` — so "state free iff member of the free list of its
order" fails in a reachable state. -/
theorem C3_free_state_without_list_membership :
    (buddy_init 0 128).isSome = true ∧ ValidBlock pool128 64 4 ∧
    get_state pool128 64 4 = 0 ∧ 64 ∉ pool128.free_lists 4 := by decide

/-- C6 (code bug): `split_partition` performs no emptiness check: called with
empty `free_lists[2]` and starting order 2 greater than target 0, it does not
return the failure value `MAX_ORDER + 1` (the SplitFailed signal) but walks
the NULL head (address 0) and returns the target order as if it had
succeeded. -/
theorem C6_split_no_emptiness_check :
    empty_pool.free_lists 2 = [] ∧ (split_partition empty_pool 2 0).1 = 0 ∧
    (split_partition empty_pool 2 0).1 ≠ MAX_ORDER + 1 := by decide

/-- C8 (code bug): allocate-then-release of the exact same size does NOT
restore the bit tree when the block has order `MAX_ORDER` and the aliased
"buddy" node reads 0: after `buddy_malloc` of 256 bytes returns 64 and
`buddy_free 64 256` runs, the free list is restored but the node of block 64
at order 4 still reads 2 (allocated), whereas it read 0 before the
allocation. -/
theorem C8_roundtrip_not_identity :
    (buddy_init 0 320).isSome = true ∧ pool320_r1.1 = some 64 ∧
    pool320.free_lists 4 = [64] ∧ get_state pool320 64 4 = 0 ∧
    pool320_after_free.free_lists 4 = [64] ∧
    get_state pool320_after_free 64 4 = 2 := by decide

/-- C9 (code bug): for the valid order-0 block at offset 240 of the
256-byte window, the bit-tree node index is 30 and the word index computed by
`get_state` and `set_state` is 30 / 16 = 1, which is not less than
`TREE_WORDS` = 1: the read and the write are out of bounds of
`uint32_t bit_tree[TREE_WORDS]` (the array is sized for one bit per node but
indexed with two bits per node). -/
theorem C9_word_index_out_of_bounds (alloc : buddy_t) (h : 240 < alloc.size) :
    (alloc.base + 240 - alloc.base) % (1 <<< (0 + MIN_BLOCK_LOG2)) = 0 ∧
    ¬ get_bit_tree_index alloc (alloc.base + 240) 0 / 16 < TREE_WORDS := by
  have e : alloc.base + 240 - alloc.base = 240 := by omega
  constructor
  · rw [e]; decide
  · simp only [get_bit_tree_index]
    rw [e]
    decide

/-- Witness for C9 at a concrete pool of size 256. -/
theorem C9_word_index_out_of_bounds_witness :
    240 < word_pool.size ∧
    ¬ get_bit_tree_index word_pool (word_pool.base + 240) 0 / 16 < TREE_WORDS :=
  ⟨by decide, (C9_word_index_out_of_bounds word_pool (by decide)).2⟩

/-- C10 (code bug): in a state reachable from a successful `buddy_init` by
three allocations and one release, `free_lists[1]` contains the address 80
whose offset 16 from the pool base is not a multiple of the order-1 block
size 32 — the size-alignment invariant needed for the XOR buddy computation
is violated. -/
theorem C10_reachable_misaligned_free_block :
    (buddy_init 0 128).isSome = true ∧ pool128_r3.1 = some 80 ∧
    80 ∈ pool128_after_free.free_lists 1 ∧
    (80 - pool128_after_free.base) % (1 <<< (1 + MIN_BLOCK_LOG2)) ≠ 0 := by decide

/-! ### The greedy decomposition performed by buddy_init -/

/-- The sequence of (address, order) blocks that the free-partitioning loop of
`buddy_init` inserts, in insertion order (the loop's trace). -/
def init_free_blocks : Nat → Nat → Nat → List (Nat × Nat)
  | 0, _, _ => []
  | fuel + 1, address, length =>
    if 1 <<< MIN_BLOCK_LOG2 ≤ length then
      (address, get_order length) ::
        init_free_blocks fuel (address + 1 <<< (get_order length + MIN_BLOCK_LOG2))
          (length - 1 <<< (get_order length + MIN_BLOCK_LOG2))
    else []

theorem shiftLeft_one (n : Nat) : (1 : Nat) <<< n = 2 ^ n := by
  rw [Nat.shiftLeft_eq, one_mul]

theorem block_size_pow (o : Nat) : (1 : Nat) <<< (o + MIN_BLOCK_LOG2) = 2 ^ o * 16 := by
  rw [shiftLeft_one, MIN_BLOCK_LOG2, Nat.pow_add]

theorem min_block_size : (1 : Nat) <<< MIN_BLOCK_LOG2 = 16 := rfl

theorem init_free_loop_frame (fuel : Nat) :
    ∀ (alloc : buddy_t) (address length : Nat),
      (init_free_loop fuel alloc address length).1.base = alloc.base ∧
      (init_free_loop fuel alloc address length).1.size = alloc.size ∧
      ∀ i, (init_free_loop fuel alloc address length).1.bit_tree i = alloc.bit_tree i := by
  induction fuel with
  | zero => intro alloc address length; exact ⟨rfl, rfl, fun _ => rfl⟩
  | succ f ih =>
    intro alloc address length
    by_cases hc : 1 <<< MIN_BLOCK_LOG2 ≤ length
    · simp only [init_free_loop, if_pos hc]
      exact ih _ _ _
    · simp only [init_free_loop, if_neg hc]
      simp

theorem init_free_loop_lists (fuel : Nat) :
    ∀ (alloc : buddy_t) (address length o : Nat),
      (init_free_loop fuel alloc address length).1.free_lists o =
        (((init_free_blocks fuel address length).filter (fun p => p.2 = o)).map
            Prod.fst).reverse ++ alloc.free_lists o := by
  induction fuel with
  | zero => intro alloc address length o; simp [init_free_loop, init_free_blocks]
  | succ f ih =>
    intro alloc address length o
    by_cases hc : 1 <<< MIN_BLOCK_LOG2 ≤ length
    · simp only [init_free_loop, init_free_blocks, if_pos hc]
      rw [ih]
      by_cases ho : get_order length = o
      · have hfilter :
            ((address, get_order length) ::
                init_free_blocks f (address + 1 <<< (get_order length + MIN_BLOCK_LOG2))
                  (length - 1 <<< (get_order length + MIN_BLOCK_LOG2))).filter
                (fun p => p.2 = o)
              = (address, get_order length) ::
                (init_free_blocks f (address + 1 <<< (get_order length + MIN_BLOCK_LOG2))
                  (length - 1 <<< (get_order length + MIN_BLOCK_LOG2))).filter
                  (fun p => p.2 = o) := by
          rw [List.filter_cons]
          simp [ho]
        rw [hfilter, List.map_cons, List.reverse_cons, List.append_assoc]
        have hlists : (append alloc address (get_order length)).free_lists o
            = address :: alloc.free_lists o := by
          simp only [append]
          rw [if_pos ho.symm, ho]
        rw [hlists]
        rfl
      · have hfilter :
            ((address, get_order length) ::
                init_free_blocks f (address + 1 <<< (get_order length + MIN_BLOCK_LOG2))
                  (length - 1 <<< (get_order length + MIN_BLOCK_LOG2))).filter
                (fun p => p.2 = o)
              = (init_free_blocks f (address + 1 <<< (get_order length + MIN_BLOCK_LOG2))
                  (length - 1 <<< (get_order length + MIN_BLOCK_LOG2))).filter
                  (fun p => p.2 = o) := by
          rw [List.filter_cons]
          simp [ho]
        have hlists : (append alloc address (get_order length)).free_lists o
            = alloc.free_lists o := by
          simp only [append]
          rw [if_neg (fun h => ho h.symm)]
        rw [hfilter, hlists]
    · simp only [init_free_loop, init_free_blocks, if_neg hc]
      simp

theorem init_free_loop_addr (fuel : Nat) :
    ∀ (alloc : buddy_t) (address length : Nat), length ≤ fuel →
      (init_free_loop fuel alloc address length).2 = address + (length - length % 16) := by
  induction fuel with
  | zero =>
    intro alloc address length hf
    have : length = 0 := by omega
    subst this
    simp [init_free_loop]
  | succ f ih =>
    intro alloc address length hf
    by_cases hc : 1 <<< MIN_BLOCK_LOG2 ≤ length
    · simp only [init_free_loop, if_pos hc]
      have h16 : (16 : Nat) ≤ length := by rw [min_block_size] at hc; exact hc
      have hble : 1 <<< (get_order length + MIN_BLOCK_LOG2) ≤ length :=
        get_order_block_le length hc
      have hbp := block_size_pow (get_order length)
      have hpos : (0 : Nat) < 2 ^ get_order length := Nat.pos_pow_of_pos _ (by norm_num)
      rw [ih _ _ _ (by omega)]
      have hmod : 1 <<< (get_order length + MIN_BLOCK_LOG2) % 16 = 0 := by
        rw [hbp]
        simp [Nat.mul_mod_left]
      rw [hbp] at hble hmod ⊢
      omega
    · simp only [init_free_loop, if_neg hc]
      rw [min_block_size] at hc
      omega


theorem init_free_blocks_mem (fuel : Nat) :
    ∀ (b address length a o : Nat), b ≤ address →
      (address - b) % (1 <<< (get_order length + MIN_BLOCK_LOG2)) = 0 →
      (a, o) ∈ init_free_blocks fuel address length →
      o ≤ MAX_ORDER ∧ b ≤ a ∧
      (a - b) % (1 <<< (o + MIN_BLOCK_LOG2)) = 0 ∧
      a - b + 1 <<< (o + MIN_BLOCK_LOG2) ≤ address - b + length ∧
      (o = MAX_ORDER ∨ address - b + length < a - b + 1 <<< (o + MIN_BLOCK_LOG2 + 1)) := by
  induction fuel with
  | zero => intro b address length a o _ _ hmem; simp [init_free_blocks] at hmem
  | succ f ih =>
    intro b address length a o hb halign hmem
    by_cases hc : 1 <<< MIN_BLOCK_LOG2 ≤ length
    · simp only [init_free_blocks, if_pos hc, List.mem_cons] at hmem
      have hble : 1 <<< (get_order length + MIN_BLOCK_LOG2) ≤ length :=
        get_order_block_le length hc
      rcases hmem with heq | hmem
      · rw [Prod.mk.injEq] at heq
        obtain ⟨ha, ho⟩ := heq
        subst ha; subst ho
        refine ⟨get_order_le_max length, hb, halign, by omega, ?_⟩
        by_cases hmax : get_order length = MAX_ORDER
        · exact Or.inl hmax
        · refine Or.inr ?_
          have := get_order_block_large length
            (lt_of_le_of_ne (get_order_le_max length) hmax)
          omega
      · obtain ⟨s, hs⟩ : ∃ s, 1 <<< (get_order length + MIN_BLOCK_LOG2) = s := ⟨_, rfl⟩
        rw [hs] at hble hmem halign
        have hmono : get_order (length - s) ≤ get_order length :=
          get_order_mono (Nat.sub_le _ _)
        have hd1 : (1 : Nat) <<< (get_order (length - s) + MIN_BLOCK_LOG2) ∣
            1 <<< (get_order length + MIN_BLOCK_LOG2) := by
          rw [block_size_pow, block_size_pow]
          exact Nat.mul_dvd_mul (Nat.pow_dvd_pow 2 hmono) dvd_rfl
        have hd2 : (1 : Nat) <<< (get_order (length - s) + MIN_BLOCK_LOG2) ∣ s := hs ▸ hd1
        have halign' : (address + s - b) %
            (1 <<< (get_order (length - s) + MIN_BLOCK_LOG2)) = 0 := by
          have he : address + s - b = (address - b) + s := by omega
          rw [he]
          exact Nat.mod_eq_zero_of_dvd
            (Nat.dvd_add (dvd_trans hd2 (Nat.dvd_of_mod_eq_zero halign)) hd2)
        have hres := ih b (address + s) (length - s) a o (by omega) halign' hmem
        obtain ⟨h1, h2, h3, h4, h5⟩ := hres
        refine ⟨h1, h2, h3, by omega, ?_⟩
        rcases h5 with h5 | h5
        · exact Or.inl h5
        · exact Or.inr (by omega)
    · simp [init_free_blocks, if_neg hc] at hmem

theorem init_pad_le (base : Nat) : init_pad base ≤ 7 := Nat.and_le_right

theorem init_reserved_loop_shortcut (fuel : Nat) (alloc : buddy_t) (address used : Nat)
    (h1 : 64 ≤ used) (h2 : used < 80) (hf : 2 ≤ fuel) :
    init_reserved_loop fuel alloc address used = set_state alloc address 2 3 := by
  match fuel, hf with
  | f + 2, _ =>
    have hc : 1 <<< MIN_BLOCK_LOG2 ≤ used := by rw [min_block_size]; omega
    have hgo : get_order used = 2 := by rw [get_order_eq]; split_ifs <;> omega
    have hsz : (1 : Nat) <<< (2 + MIN_BLOCK_LOG2) = 64 := rfl
    simp only [init_reserved_loop, if_pos hc, hgo, hsz]
    have hc2 : ¬ 1 <<< MIN_BLOCK_LOG2 ≤ used - 64 := by rw [min_block_size]; omega
    simp only [init_reserved_loop, if_neg hc2]

/-- The managed base address computed by `buddy_init`. -/
def init_base (base : Nat) : Nat := base + init_pad base + sizeof_buddy_t

/-- The managed size computed by `buddy_init`. -/
def init_len (base length : Nat) : Nat := length - init_pad base - sizeof_buddy_t

/-- The freshly zeroed allocator record `buddy_init` builds before its loops. -/
def init_zero (base length : Nat) : buddy_t :=
  { base := init_base base, size := init_len base length
    bit_tree := fun _ => 0, free_lists := fun _ => [] }

/-- The result of the free-partitioning loop inside `buddy_init`. -/
def init_result (base length : Nat) : buddy_t × Nat :=
  init_free_loop (init_len base length) (init_zero base length) (init_base base)
    (init_len base length)

theorem buddy_init_none_iff (base length : Nat) :
    buddy_init base length = none ↔ length < init_pad base + sizeof_buddy_t := by
  by_cases h1 : length < init_pad base
  · have e : buddy_init base length = none := by simp only [buddy_init, if_pos h1]
    rw [e]
    exact ⟨fun _ => by omega, fun _ => rfl⟩
  · by_cases h2 : length - init_pad base < sizeof_buddy_t
    · have e : buddy_init base length = none := by
        simp only [buddy_init, if_neg h1, if_pos h2]
      rw [e]
      exact ⟨fun _ => by omega, fun _ => rfl⟩
    · simp only [buddy_init, if_neg h1, if_neg h2]
      constructor
      · intro h
        exact absurd h (by simp)
      · intro h
        omega

theorem buddy_init_some_eq (base length : Nat)
    (h : ¬ length < init_pad base + sizeof_buddy_t) :
    buddy_init base length =
      some (set_state (init_result base length).1 (init_result base length).2 2 3) := by
  have h1 : ¬ length < init_pad base := by omega
  have h2 : ¬ length - init_pad base < sizeof_buddy_t := by omega
  simp only [buddy_init, if_neg h1, if_neg h2]
  congr 1
  rw [show (init_result base length) = init_free_loop (init_len base length)
      (init_zero base length) (init_base base) (init_len base length) from rfl]
  apply init_reserved_loop_shortcut
  · have := init_pad_le base
    unfold sizeof_buddy_t
    omega
  · have := init_pad_le base
    unfold sizeof_buddy_t
    omega
  · have := init_pad_le base
    unfold sizeof_buddy_t
    omega

theorem get_bit_tree_index_formula (s : buddy_t) (a o : Nat) :
    get_bit_tree_index s a o =
      1 <<< (MEM_BLOCK_LOG2 - o - MIN_BLOCK_LOG2) - 1 +
        (a - s.base) / (1 <<< (MIN_BLOCK_LOG2 + o)) := by
  simp only [get_bit_tree_index]
  have ht : TRUNCATED_TREE_NODES = 0 := rfl
  rw [ht, Nat.sub_zero]

theorem node_index_ne_reserved_index (o x F : Nat) (ho : o ≤ 4)
    (hx : x % (1 <<< (o + MIN_BLOCK_LOG2)) = 0)
    (hxF : x + 1 <<< (o + MIN_BLOCK_LOG2) ≤ F)
    (htail : o = 4 ∨ F < x + 1 <<< (o + MIN_BLOCK_LOG2 + 1)) :
    1 <<< (MEM_BLOCK_LOG2 - o - MIN_BLOCK_LOG2) - 1 + x / (1 <<< (MIN_BLOCK_LOG2 + o)) ≠
      1 <<< (MEM_BLOCK_LOG2 - 2 - MIN_BLOCK_LOG2) - 1 + F / (1 <<< (MIN_BLOCK_LOG2 + 2)) := by
  interval_cases o
  all_goals
    simp only [MEM_BLOCK_LOG2, MIN_BLOCK_LOG2, shiftLeft_one] at hx hxF htail ⊢
  all_goals
    norm_num at hx hxF htail ⊢
  all_goals
    omega

/-- C3 amended (the half of the invariant that survives at init time): in the
state produced by a successful `buddy_init` — before any allocate or release —
every block present in `free_lists[o]` for any order `o` has bit-tree state
00 (free).  The converse direction of the claimed iff is false (see the
counterexample), and after further operations even this direction can fail
(see the C8 theorem). -/
theorem C3_after_init_listed_blocks_are_free (base length : Nat) (alloc : buddy_t)
    (o a : Nat) (hinit : buddy_init base length = some alloc)
    (hmem : a ∈ alloc.free_lists o) : get_state alloc a o = 0 := by
  have hge : ¬ length < init_pad base + sizeof_buddy_t := by
    intro hlt
    rw [(buddy_init_none_iff base length).mpr hlt] at hinit
    exact Option.noConfusion hinit
  rw [buddy_init_some_eq base length hge] at hinit
  have hx := Option.some.inj hinit
  subst hx
  replace hmem : a ∈ (init_result base length).1.free_lists o := hmem
  simp only [init_result] at hmem
  rw [init_free_loop_lists] at hmem
  have hzl : (init_zero base length).free_lists o = [] := rfl
  rw [hzl, List.append_nil, List.mem_reverse] at hmem
  obtain ⟨p, hp, hpa⟩ := List.mem_map.mp hmem
  obtain ⟨hpw, hpo⟩ := List.mem_filter.mp hp
  obtain ⟨p1, p2⟩ := p
  have hp2 : p2 = o := by simpa using hpo
  have hp1 : p1 = a := hpa
  rw [hp1, hp2] at hpw
  have hml := init_free_blocks_mem (init_len base length) (init_base base) (init_base base)
    (init_len base length) a o le_rfl (by simp) hpw
  obtain ⟨ho4, hBa, halign, hbound, htail⟩ := hml
  have hm4 : MAX_ORDER = 4 := rfl
  have ho4' : o ≤ 4 := by omega
  have hd16 : (1 : Nat) <<< (o + MIN_BLOCK_LOG2) % 16 = 0 := by
    rw [block_size_pow]
    exact Nat.mul_mod_left _ _
  have hx16 : (a - init_base base) % 16 = 0 := by
    have h1 : (16 : Nat) ∣ 1 <<< (o + MIN_BLOCK_LOG2) := by
      rw [block_size_pow]
      exact dvd_mul_left 16 (2 ^ o)
    exact Nat.mod_eq_zero_of_dvd (dvd_trans h1 (Nat.dvd_of_mod_eq_zero halign))
  have hsub0 : init_base base - init_base base = 0 := Nat.sub_self _
  rw [hsub0, Nat.zero_add] at hbound htail
  have hxF : a - init_base base + 1 <<< (o + MIN_BLOCK_LOG2) ≤
      init_len base length - init_len base length % 16 := by omega
  have htail' : o = 4 ∨ init_len base length - init_len base length % 16 <
      a - init_base base + 1 <<< (o + MIN_BLOCK_LOG2 + 1) := by
    rcases htail with h | h
    · exact Or.inl (by omega)
    · exact Or.inr (by omega)
  have hRbase : (init_result base length).1.base = init_base base := by
    simp only [init_result]
    exact (init_free_loop_frame _ _ _ _).1
  have hRtree : ∀ i, (init_result base length).1.bit_tree i = 0 := by
    intro i
    simp only [init_result]
    exact (init_free_loop_frame _ _ _ _).2.2 i
  have hne : get_bit_tree_index (init_result base length).1 a o ≠
      get_bit_tree_index (init_result base length).1 (init_result base length).2 2 := by
    rw [get_bit_tree_index_formula, get_bit_tree_index_formula, hRbase]
    have hE' : (init_result base length).2 = init_base base +
        (init_len base length - init_len base length % 16) := by
      simp only [init_result]
      exact init_free_loop_addr (init_len base length) (init_zero base length)
        (init_base base) (init_len base length) le_rfl
    rw [hE']
    have hBB : init_base base + (init_len base length - init_len base length % 16)
        - init_base base = init_len base length - init_len base length % 16 := by omega
    rw [hBB]
    exact node_index_ne_reserved_index o (a - init_base base)
      (init_len base length - init_len base length % 16) ho4' halign hxF htail'
  rw [get_state_set_state_other ((init_result base length).1) ((init_result base length).2)
    2 3 a o (by norm_num) hne]
  exact get_state_of_zero_tree hRtree a o

/-- Witness for the amended C3: in the pool built by `buddy_init 0 128`, the
block 64 sits in `free_lists[2]` and its tracked state, via the theorem, is
00. -/
theorem C3_after_init_listed_blocks_are_free_witness :
    64 ∈ ((buddy_init 0 128).get (by decide)).free_lists 2 ∧
    get_state ((buddy_init 0 128).get (by decide)) 64 2 = 0 :=
  ⟨by decide,
   C3_after_init_listed_blocks_are_free 0 128 ((buddy_init 0 128).get (by decide)) 2 64
     (Option.some_get (by decide)).symm (by decide)⟩

/-- C7 (counterexample to the reserved-marking conjunct): in `buddy_init 0
128` the descriptor occupies `[0, 64)` (pad 0, `sizeof(buddy_t)` = 64) and
the managed base is 64, so every bit-tree node describes addresses at or
above 64 and no node covers the descriptor's own bytes; reading the
descriptor's own 64-byte block through the tree yields state 0, not
reserved, while the single reserved mark (word 0 = 768, i.e. the two bits of
node 4) covers the block `[128, 192)` — a descriptor-sized region placed
after the partitioned free memory, not the descriptor's footprint. -/
theorem C7_descriptor_not_marked_reserved :
    (buddy_init 0 128).isSome = true ∧
    init_pad 0 = 0 ∧
    pool128.base = 64 ∧
    get_state pool128 0 2 = 0 ∧
    get_state pool128 128 2 = 3 ∧
    pool128.bit_tree 0 = 768 ∧ pool128.bit_tree 1 = 0 := by decide

/-- C7 amended: `buddy_init` fails exactly when the buffer cannot hold the
alignment padding plus the descriptor (returning NULL before touching
anything); on success the descriptor sits at the padded start of the buffer
(managed base = `base + pad + sizeof`), the managed size is the remainder,
each `free_lists[o]` holds exactly the order-`o` blocks of the greedy
largest-fit-first decomposition of the managed bytes (most recently inserted
first), the final remainder smaller than the minimum block size is left out
of every list, and — instead of the descriptor's own footprint, which lies
below the managed base and outside the tree — a single descriptor-sized
(rounded down to block granularity, 64-byte) block starting right after the
partitioned free memory is marked reserved: the bit tree equals the all-zero
tree with exactly that one `set_state _ _ 2 3` mark.  The last two conjuncts
pin down the decomposition: it stops below the minimum block size and at
each step emits the block of order `get_order len`, which is the biggest
order not above `MAX_ORDER` whose block size fits the remaining length. -/
theorem C7_init_fail_iff_and_greedy_layout (base length : Nat) :
    (buddy_init base length = none ↔ length < init_pad base + sizeof_buddy_t)
    ∧ (∀ alloc : buddy_t, buddy_init base length = some alloc →
        alloc.base = base + init_pad base + sizeof_buddy_t
        ∧ alloc.size = length - init_pad base - sizeof_buddy_t
        ∧ (∀ o, alloc.free_lists o =
            (((init_free_blocks alloc.size alloc.base alloc.size).filter
                (fun p => p.2 = o)).map Prod.fst).reverse)
        ∧ (∀ i, alloc.bit_tree i =
            (set_state (init_zero base length)
              (alloc.base + (alloc.size - alloc.size % (1 <<< MIN_BLOCK_LOG2)))
              2 3).bit_tree i))
    ∧ (∀ fuel address len, len < 1 <<< MIN_BLOCK_LOG2 →
        init_free_blocks fuel address len = [])
    ∧ (∀ fuel address len, 1 <<< MIN_BLOCK_LOG2 ≤ len →
        init_free_blocks (fuel + 1) address len =
          (address, get_order len) ::
            init_free_blocks fuel (address + 1 <<< (get_order len + MIN_BLOCK_LOG2))
              (len - 1 <<< (get_order len + MIN_BLOCK_LOG2)))
    ∧ (∀ len, 1 <<< MIN_BLOCK_LOG2 ≤ len →
        get_order len ≤ MAX_ORDER ∧ 1 <<< (get_order len + MIN_BLOCK_LOG2) ≤ len ∧
          ∀ o, o ≤ MAX_ORDER → 1 <<< (o + MIN_BLOCK_LOG2) ≤ len → o ≤ get_order len) := by
  refine ⟨buddy_init_none_iff base length, ?_, ?_, ?_, ?_⟩
  · intro alloc h
    have hge : ¬ length < init_pad base + sizeof_buddy_t := by
      intro hlt
      rw [(buddy_init_none_iff base length).mpr hlt] at h
      exact Option.noConfusion h
    rw [buddy_init_some_eq base length hge] at h
    have hx := Option.some.inj h
    subst hx
    have hRbase : (init_result base length).1.base = init_base base := by
      simp only [init_result]
      exact (init_free_loop_frame _ _ _ _).1
    have hRsize : (init_result base length).1.size = init_len base length := by
      simp only [init_result]
      exact (init_free_loop_frame _ _ _ _).2.1
    have hRtree : ∀ i, (init_result base length).1.bit_tree i = 0 := by
      intro i
      simp only [init_result]
      exact (init_free_loop_frame _ _ _ _).2.2 i
    have hsb : (set_state (init_result base length).1 (init_result base length).2 2 3).base
        = init_base base := hRbase
    have hss : (set_state (init_result base length).1 (init_result base length).2 2 3).size
        = init_len base length := hRsize
    refine ⟨hsb, hss, ?_, ?_⟩
    · intro o
      rw [hsb, hss]
      show (init_result base length).1.free_lists o = _
      simp only [init_result]
      rw [init_free_loop_lists]
      have hzl : (init_zero base length).free_lists o = [] := rfl
      rw [hzl, List.append_nil]
    · intro i
      have hE : (init_result base length).2 =
          init_base base + (init_len base length - init_len base length % 16) := by
        simp only [init_result]
        exact init_free_loop_addr (init_len base length) (init_zero base length)
          (init_base base) (init_len base length) le_rfl
      rw [hsb, hss, min_block_size, ← hE]
      rw [set_state_tree, set_state_tree]
      have hidx : get_bit_tree_index (init_zero base length) (init_result base length).2 2
          = get_bit_tree_index (init_result base length).1 (init_result base length).2 2 :=
        get_bit_tree_index_congr _ _ (by rw [hRbase]; rfl) _ _
      rw [hidx]
      by_cases hi : i =
          get_bit_tree_index (init_result base length).1 (init_result base length).2 2 / 16
      · rw [if_pos hi, if_pos hi, hRtree]
        rfl
      · rw [if_neg hi, if_neg hi, hRtree]
        rfl
  · intro fuel address len hlt
    match fuel with
    | 0 => rfl
    | f + 1 =>
      simp only [init_free_blocks, if_neg (Nat.not_le.mpr hlt)]
  · intro fuel address len hle
    simp only [init_free_blocks, if_pos hle]
  · intro len hle
    exact ⟨get_order_le_max len, get_order_block_le len hle,
      fun o ho hs => get_order_greatest len o ho hs⟩

/-- Witness for the amended C7, at the concrete buffer (0, 128): the failure
iff, the computed base, and the free-list characterisation at order 2, all by
applying the theorem. -/
theorem C7_init_fail_iff_and_greedy_layout_witness :
    (buddy_init 0 128 = none ↔ 128 < init_pad 0 + sizeof_buddy_t) ∧
    ((buddy_init 0 128).get (by decide)).base = 0 + init_pad 0 + sizeof_buddy_t ∧
    ((buddy_init 0 128).get (by decide)).free_lists 2 =
      (((init_free_blocks ((buddy_init 0 128).get (by decide)).size
          ((buddy_init 0 128).get (by decide)).base
          ((buddy_init 0 128).get (by decide)).size).filter
            (fun p => p.2 = 2)).map Prod.fst).reverse :=
  ⟨(C7_init_fail_iff_and_greedy_layout 0 128).1,
   ((C7_init_fail_iff_and_greedy_layout 0 128).2.1 _ (Option.some_get (by decide)).symm).1,
   ((C7_init_fail_iff_and_greedy_layout 0 128).2.1 _
      (Option.some_get (by decide)).symm).2.2.1 2⟩
